import Mathlib

/-!
Verification development for the image-batch layer of the `dataset`
repository (`src/dataset/batch_image.py`) and its component-view system
(whose implementation is exercised by `src/batchflow/tests/components_test.py`).

The development shallowly embeds the Python code:

* numpy arrays are modelled by `NpArr` — a shape (list of axis extents)
  together with the row-major flattening of the data;
* per-record image geometry (`preserve_shape`, `random_scale`) is modelled
  on `Image α` — a list of rows, each row a list of cells, where a cell `α`
  packs all trailing axes of the underlying numpy array;
* stateful Python objects (the batch and the component storage heap) are
  passed explicitly; raising is modelled by explicit outcome inductives;
* numpy randomness (`binomial`, `uniform`) is modelled by passing the
  underlying uniform draws as explicit rational arguments.
-/

set_option linter.unusedVariables false
set_option maxRecDepth 40000

/-! ### Basic list and slicing infrastructure -/

/-- Normalize one bound of a Python slice against an axis of extent `n`:
a negative index counts from the end, bounds are clamped into `[0, n]`.
This is the step-1 basic-slicing rule of Python and numpy. -/
def sliceIdx (n : Nat) (i : Int) : Nat :=
  if i < 0 then ((n : Int) + i).toNat else min i.toNat n

/-- Split a flat list into `n` consecutive chunks of size `k`
(the row-major structure of a numpy axis). -/
def chunksN (k : Nat) : Nat → List α → List (List α)
  | 0, _ => []
  | n + 1, xs => xs.take k :: chunksN k n (xs.drop k)

/-- The list of naturals `a, a+1, ..., b-1`. -/
def natRange (a b : Nat) : List Nat :=
  (List.range (b - a)).map (a + ·)

/-- Does `n` occur at the head of `h`? -/
def leadMatches : List Char → List Char → Bool
  | [], _ => true
  | _ :: _, [] => false
  | a :: as, b :: bs => a == b && leadMatches as bs

/-- Does `n` occur as a contiguous sublist of `h`? -/
def hasSubList (n : List Char) : List Char → Bool
  | [] => n.isEmpty
  | b :: bs => leadMatches n (b :: bs) || hasSubList n bs

/-- Python substring containment `needle in haystack`. -/
def strHasSub (needle hay : String) : Bool :=
  hasSubList needle.toList hay.toList

/-! ### The flat numpy-array model -/

/-- A numpy ndarray: its shape and the row-major flattening of its data. -/
structure NpArr where
  shape : List Nat
  data : List Int
deriving DecidableEq

/-- `np.stack` over a list of arrays: errors on an empty list, errors when
the shapes disagree, otherwise prepends a new axis of extent `len`.
The error strings are numpy's actual messages, which
`ImagesBatch.assemble_component` inspects. -/
def npStack (xs : List NpArr) : Except String NpArr :=
  match xs with
  | [] => Except.error "need at least one array to stack"
  | a :: rest =>
    if rest.all (fun b => b.shape == a.shape) then
      Except.ok ⟨xs.length :: a.shape, (xs.map (fun b => b.data)).flatten⟩
    else
      Except.error "all input arrays must have the same shape"

/-- Elementwise minimum of a list of shapes:
`np.array([x.shape for x in all_res]).min(axis=0)`.
(Only meaningful when all shapes have the same length, which is the only
situation in which the numpy original is well defined.) -/
def minAxis (shapes : List (List Nat)) : List Nat :=
  match shapes with
  | [] => []
  | s :: rest => rest.foldl (fun acc t => List.zipWith min acc t) s

/-- Basic 2-axis slice `a[r0:r1, c0:c1]` of an ndarray with at least two
axes; trailing axes ride along untouched.  (The embedded code never applies
it to arrays of fewer than two axes.) -/
def npSlice2D (a : NpArr) (r0 r1 c0 c1 : Int) : NpArr :=
  match a.shape with
  | s0 :: s1 :: rest =>
    let inner := rest.prod
    let ra := sliceIdx s0 r0
    let rb := sliceIdx s0 r1
    let ca := sliceIdx s1 c0
    let cb := sliceIdx s1 c1
    let rows := chunksN (s1 * inner) s0 a.data
    let picked := ((rows.drop ra).take (rb - ra)).map
      (fun row => (((chunksN inner s1 row).drop ca).take (cb - ca)).flatten)
    ⟨(rb - ra) :: (cb - ca) :: rest, picked.flatten⟩
  | _ => a

/-- The crop `arr[:m0, :m1].copy()` used by the assembly fallback. -/
def cropTo2 (a : NpArr) (m0 m1 : Nat) : NpArr :=
  npSlice2D a 0 (m0 : Int) 0 (m1 : Int)

/-- Outcome of `ImagesBatch.assemble_component`. -/
inductive AsmOutcome
  | installed (a : NpArr)
  | valueError (msg : String)
  | unboundLocal
deriving DecidableEq

/-- `ImagesBatch.assemble_component`: try `np.stack`; on a `ValueError`
whose message contains "must have the same shape", crop every result to the
elementwise minimum shape along the first two axes and re-stack (this second
`np.stack` is outside the `try`, so its `ValueError` propagates); on any
other `ValueError` the handler falls through with `new_images` unassigned
and the final `setattr` hits an unbound local. -/
def assemble_component (all_res : List NpArr) : AsmOutcome :=
  match npStack all_res with
  | Except.ok a => AsmOutcome.installed a
  | Except.error msg =>
    if strHasSub "must have the same shape" msg then
      let ms := minAxis (all_res.map (fun a => a.shape))
      match npStack (all_res.map (fun a => cropTo2 a (ms.getD 0 0) (ms.getD 1 0))) with
      | Except.ok a2 => AsmOutcome.installed a2
      | Except.error m2 => AsmOutcome.valueError m2
    else AsmOutcome.unboundLocal

/-! ### Helper lemmas for the assembly claims -/

theorem zipWith_min_self (t : List Nat) : List.zipWith min t t = t := by
  induction t with
  | nil => rfl
  | cons a t ih => simp [List.zipWith, ih]

theorem minAxis_foldl (tail : List Nat)
    (l : List (List Nat)) :
    ∀ (h w : Nat), (∀ s ∈ l, ∃ a b, s = a :: b :: tail) →
    ∃ H W, l.foldl (fun acc t => List.zipWith min acc t) (h :: w :: tail)
        = H :: W :: tail ∧ H ≤ h ∧ W ≤ w ∧
        (∀ s ∈ l, ∀ a b, s = a :: b :: tail → H ≤ a ∧ W ≤ b) := by
  induction l with
  | nil =>
    intro h w _
    exact ⟨h, w, rfl, le_refl _, le_refl _, by intro s hs; cases hs⟩
  | cons s rest ih =>
    intro h w hall
    obtain ⟨a, b, hs⟩ := hall s (List.mem_cons_self s rest)
    subst hs
    have hstep : List.zipWith min (h :: w :: tail) (a :: b :: tail)
        = min h a :: min w b :: tail := by
      simp [List.zipWith, zipWith_min_self]
    obtain ⟨H, W, heq, hH, hW, hmem⟩ :=
      ih (min h a) (min w b) (fun s hs => hall s (List.mem_cons_of_mem _ hs))
    refine ⟨H, W, ?_, ?_, ?_, ?_⟩
    · simpa [hstep] using heq
    · exact le_trans hH (min_le_left _ _)
    · exact le_trans hW (min_le_left _ _)
    · intro s hs a' b' hs'
      rcases List.mem_cons.mp hs with hs | hs
      · rw [hs] at hs'
        injection hs' with ha heq3
        injection heq3 with hb _
        refine ⟨?_, ?_⟩
        · rw [← ha]; exact le_trans hH (min_le_right _ _)
        · rw [← hb]; exact le_trans hW (min_le_right _ _)
      · exact hmem s hs a' b' hs'

theorem sliceIdx_of_le (n : Nat) (i : Int) (h0 : 0 ≤ i) (h1 : i ≤ (n : Int)) :
    sliceIdx n i = i.toNat := by
  unfold sliceIdx
  rw [if_neg (by omega)]
  omega

theorem npSlice2D_shape (a : NpArr) {s0 s1 : Nat} {rest : List Nat}
    (hsh : a.shape = s0 :: s1 :: rest) (r0 r1 c0 c1 : Int) :
    (npSlice2D a r0 r1 c0 c1).shape
      = (sliceIdx s0 r1 - sliceIdx s0 r0) :: (sliceIdx s1 c1 - sliceIdx s1 c0) :: rest := by
  obtain ⟨sh, d⟩ := a
  simp only at hsh
  subst hsh
  simp [npSlice2D]

theorem cropTo2_shape (a : NpArr) {h w : Nat} {rest : List Nat}
    (hsh : a.shape = h :: w :: rest) {H W : Nat} (hH : H ≤ h) (hW : W ≤ w) :
    (cropTo2 a H W).shape = H :: W :: rest := by
  unfold cropTo2
  rw [npSlice2D_shape a hsh]
  rw [sliceIdx_of_le h (H : Int) (by omega) (by omega)]
  rw [sliceIdx_of_le w (W : Int) (by omega) (by omega)]
  rw [sliceIdx_of_le h 0 (by omega) (by omega)]
  rw [sliceIdx_of_le w 0 (by omega) (by omega)]
  simp

theorem strHasSub_mismatch :
    strHasSub "must have the same shape" "all input arrays must have the same shape" = true := by
  decide

/-- Claim C1, counterexample: two per-record results whose shapes agree on
the first two axes but disagree on the channel axis.  `np.stack` raises a
shape mismatch (the claim's premise holds), yet `assemble_component` does
not assemble them without error: cropping the first two axes cannot
reconcile the channel axis, so the re-stack raises the same `ValueError`. -/
theorem c1_counterexample :
    npStack [NpArr.mk [1, 1, 1] [0], NpArr.mk [1, 1, 2] [0, 0]]
        = Except.error "all input arrays must have the same shape"
      ∧ assemble_component [NpArr.mk [1, 1, 1] [0], NpArr.mk [1, 1, 2] [0, 0]]
        = AsmOutcome.valueError "all input arrays must have the same shape" := by
  exact ⟨rfl, by decide⟩

/-- Claim C1 (amended): when the per-record results all have the same number
of axes and agree on every axis beyond the first two, and `np.stack` raises
a shape mismatch, `assemble_component` crops every result down to the
elementwise minimum shape along the first two axes and installs the stack of
the cropped results, without raising. -/
theorem c1_assemble_fallback (all_res : List NpArr) (tail : List Nat)
    (hsh : ∀ a ∈ all_res, ∃ h w, a.shape = h :: w :: tail)
    (hstack : npStack all_res = Except.error "all input arrays must have the same shape") :
    ∃ stacked,
      npStack (all_res.map (fun a =>
          cropTo2 a ((minAxis (all_res.map (fun b => b.shape))).getD 0 0)
                   ((minAxis (all_res.map (fun b => b.shape))).getD 1 0)))
        = Except.ok stacked
      ∧ assemble_component all_res = AsmOutcome.installed stacked := by
  match hne : all_res with
  | [] => simp [npStack] at hstack
  | a0 :: rest =>
    obtain ⟨h0, w0, hsh0⟩ := hsh a0 (List.mem_cons_self a0 rest)
    have hmins := minAxis_foldl tail (rest.map (fun b => b.shape)) h0 w0
      (by
        intro s hs
        obtain ⟨b, hb, hbs⟩ := List.mem_map.mp hs
        obtain ⟨hb', wb', hbsh⟩ := hsh b (List.mem_cons_of_mem _ hb)
        exact ⟨hb', wb', by rw [← hbs, hbsh]⟩)
    obtain ⟨H, W, hfold, hHle, hWle, hmem⟩ := hmins
    have hminax : minAxis ((a0 :: rest).map (fun b => b.shape)) = H :: W :: tail := by
      simp only [List.map_cons, minAxis, hsh0]
      exact hfold
    have hcrop : ∀ a ∈ a0 :: rest, (cropTo2 a H W).shape = H :: W :: tail := by
      intro a ha
      obtain ⟨ha', wa', hash⟩ := hsh a ha
      rcases List.mem_cons.mp ha with ha | ha
      · subst ha
        exact cropTo2_shape a hsh0 hHle hWle
      · have := hmem a.shape (List.mem_map.mpr ⟨a, ha, rfl⟩) ha' wa' hash
        exact cropTo2_shape a hash this.1 this.2
    have hallshape : ((a0 :: rest).map (fun a => cropTo2 a H W)).all
        (fun b => b.shape == (cropTo2 a0 H W).shape) = true := by
      rw [List.all_eq_true]
      intro b hb
      obtain ⟨c, hc, hcb⟩ := List.mem_map.mp hb
      rw [← hcb]
      rw [beq_iff_eq, hcrop c hc, hcrop a0 (List.mem_cons_self a0 rest)]
    have hstack2 : npStack ((a0 :: rest).map (fun a => cropTo2 a H W))
        = Except.ok ⟨((a0 :: rest).map (fun a => cropTo2 a H W)).length
            :: (cropTo2 a0 H W).shape,
            (((a0 :: rest).map (fun a => cropTo2 a H W)).map (fun b => b.data)).flatten⟩ := by
      simp only [npStack, List.map_cons]
      rw [if_pos]
      have := hallshape
      simp only [List.map_cons, List.all_cons] at this ⊢
      exact (Bool.and_eq_true _ _).mp this |>.2
    refine ⟨⟨((a0 :: rest).map (fun a => cropTo2 a H W)).length :: (cropTo2 a0 H W).shape,
        (((a0 :: rest).map (fun a => cropTo2 a H W)).map (fun b => b.data)).flatten⟩, ?_, ?_⟩
    · rw [hminax]
      simp only [List.getD, List.get?, Option.getD]
      exact hstack2
    · unfold assemble_component
      rw [hstack]
      simp only [strHasSub_mismatch, if_true]
      rw [hminax]
      simp only [List.getD, List.get?, Option.getD]
      rw [hstack2]

theorem c1_assemble_fallback_witness :
    ∃ stacked,
      npStack ([NpArr.mk [2, 1] [5, 6], NpArr.mk [1, 2] [7, 8]].map (fun a =>
          cropTo2 a
            ((minAxis ([NpArr.mk [2, 1] [5, 6], NpArr.mk [1, 2] [7, 8]].map
                (fun b => b.shape))).getD 0 0)
            ((minAxis ([NpArr.mk [2, 1] [5, 6], NpArr.mk [1, 2] [7, 8]].map
                (fun b => b.shape))).getD 1 0)))
        = Except.ok stacked
      ∧ assemble_component [NpArr.mk [2, 1] [5, 6], NpArr.mk [1, 2] [7, 8]]
        = AsmOutcome.installed stacked :=
  c1_assemble_fallback [NpArr.mk [2, 1] [5, 6], NpArr.mk [1, 2] [7, 8]] []
    (by
      intro a ha
      rcases List.mem_cons.mp ha with h | h
      · exact ⟨2, 1, by rw [h]⟩
      · rcases List.mem_cons.mp h with h2 | h2
        · exact ⟨1, 2, by rw [h2]⟩
        · cases h2)
    rfl

/-- Claim C10: when `np.stack` raises a `ValueError` whose message does not
contain "must have the same shape" (in this model: the empty-input message),
the `except` clause of `assemble_component` swallows it without assigning
`new_images`, so the trailing `setattr` fails with an unbound-local error:
the original `ValueError` is not propagated and no value is installed. -/
theorem c10_unbound_local (all_res : List NpArr) (msg : String)
    (herr : npStack all_res = Except.error msg)
    (hmsg : strHasSub "must have the same shape" msg = false) :
    assemble_component all_res = AsmOutcome.unboundLocal := by
  simp [assemble_component, herr, hmsg]

theorem c10_unbound_local_witness :
    npStack ([] : List NpArr) = Except.error "need at least one array to stack"
      ∧ strHasSub "must have the same shape" "need at least one array to stack" = false
      ∧ assemble_component ([] : List NpArr) = AsmOutcome.unboundLocal :=
  ⟨rfl, by decide,
    c10_unbound_local [] "need at least one array to stack" rfl (by decide)⟩

/-! ### The batch, task results, and `ImagesBatch.assemble` -/

/-- A captured per-record exception: its message and its traceback text. -/
structure PyErr where
  msg : String
  tb : String
deriving DecidableEq

/-- Result of one per-record task dispatched by the parallel decorator. -/
abbrev TaskRes := Except PyErr NpArr

/-- Modelled from the spec: `any_action_failed` lives in
`dataset/decorators.py`, which is not under `src/`; per the spec's
collaborator contract (section 6), the parallel decorator returns all
results or captured exceptions, and this predicate reports whether any
per-record task failed. -/
def any_action_failed (res : List TaskRes) : Bool :=
  res.any (fun r => match r with
    | Except.error _ => true
    | Except.ok _ => false)

/-- Modelled from the spec: `Batch.get_errors` lives outside `src/`; it
collects the captured per-record exceptions. -/
def get_errors (res : List TaskRes) : List PyErr :=
  res.filterMap (fun r => match r with
    | Except.error e => some e
    | Except.ok _ => none)

/-- A batch object: its named component storage (`setattr`-style fields).
The multi-component form of `assemble` (a list of names zipped with tuple
results) follows the same failure guard and is not separately modelled. -/
structure PyBatch where
  comps : List (String × NpArr)
deriving DecidableEq

def getComp (b : PyBatch) (name : String) : NpArr :=
  (b.comps.lookup name).getD ⟨[], []⟩

def setComp (b : PyBatch) (name : String) (v : NpArr) : PyBatch :=
  ⟨(name, v) :: b.comps.filter (fun p => !(p.1 == name))⟩

/-- Outcome of `ImagesBatch.assemble`: a fatal raise on task failure
(printing the captured errors and the first traceback, batch untouched), a
propagated exception from `assemble_component`, or the updated batch. -/
inductive AssembleOut
  | raisedTaskFailure (printed : List PyErr) (tbShown : String) (msg : String) (b : PyBatch)
  | raisedFromComponent (o : AsmOutcome) (b : PyBatch)
  | finished (b : PyBatch)
deriving DecidableEq

/-- `ImagesBatch.assemble`: if any per-record task failed, print all
captured errors and the first error's traceback and raise
`RuntimeError("Could not assemble the batch")` before touching any
component; otherwise install the assembled component. -/
def assembleBatch (b : PyBatch) (name : String) (all_res : List TaskRes) : AssembleOut :=
  if any_action_failed all_res then
    let errs := get_errors all_res
    AssembleOut.raisedTaskFailure errs (errs.headD ⟨"", ""⟩).tb
      "Could not assemble the batch" b
  else
    match assemble_component (all_res.map (fun r => match r with
        | Except.ok a => a
        | Except.error _ => ⟨[], []⟩)) with
    | AsmOutcome.installed a => AssembleOut.finished (setComp b name a)
    | AsmOutcome.valueError m => AssembleOut.raisedFromComponent (AsmOutcome.valueError m) b
    | AsmOutcome.unboundLocal => AssembleOut.raisedFromComponent AsmOutcome.unboundLocal b

/-- Claim C2: whenever at least one per-record task failed, `assemble`
raises fatally with `RuntimeError("Could not assemble the batch")`,
surfacing the captured per-record errors and the first error's traceback,
and the batch it leaves behind is exactly the input batch — no partial
results are installed into any component. -/
theorem c2_assemble_fails_fatally (b : PyBatch) (name : String) (all_res : List TaskRes)
    (hfail : any_action_failed all_res = true) :
    assembleBatch b name all_res
      = AssembleOut.raisedTaskFailure (get_errors all_res)
          ((get_errors all_res).headD ⟨"", ""⟩).tb "Could not assemble the batch" b := by
  unfold assembleBatch
  rw [if_pos hfail]

theorem c2_assemble_fails_fatally_witness :
    any_action_failed [Except.error ⟨"boom", "trace0"⟩,
        Except.ok (NpArr.mk [1] [9])] = true
      ∧ assembleBatch ⟨[("images", NpArr.mk [2, 1] [4, 5])]⟩ "images"
          [Except.error ⟨"boom", "trace0"⟩, Except.ok (NpArr.mk [1] [9])]
        = AssembleOut.raisedTaskFailure [⟨"boom", "trace0"⟩] "trace0"
            "Could not assemble the batch" ⟨[("images", NpArr.mk [2, 1] [4, 5])]⟩ :=
  ⟨by decide,
    c2_assemble_fails_fatally ⟨[("images", NpArr.mk [2, 1] [4, 5])]⟩ "images"
      [Except.error ⟨"boom", "trace0"⟩, Except.ok (NpArr.mk [1] [9])] (by decide)⟩

/-! ### `BaseImagesBatch.crop` argument validation and `ImagesBatch._crop_image`

The Python `origin` argument is either a string or a list-like pair, and
`shape` is either `None`, a list-like, or something else entirely.
Numeric list-like arguments are modelled as numpy integer arrays, for which
`origin + shape` is elementwise addition (with tuple or list arguments
Python `+` would concatenate and the comparison against `image.shape[:2]`
would raise inside the task; that dynamic-typing corner is outside this
model).  The `ValueError` messages are abbreviated, without apostrophes. -/

inductive PyOriginV
  | str (s : String)
  | listLike (xs : List Int)
deriving DecidableEq

inductive PyShapeV
  | noneV
  | listLike (xs : List Int)
  | other
deriving DecidableEq

/-- The three `ValueError` checks at the top of `BaseImagesBatch.crop`,
in source order.  Note: the length of `shape` is never checked. -/
def crop_validate (origin : PyOriginV) (shape : PyShapeV) : Option String :=
  if (match origin with
      | PyOriginV.str s => !(s == "top_left" || s == "center")
      | PyOriginV.listLike _ => false) then
    some "origin must be either top_left or center or one of LIST_LIKE_OBJECTS"
  else if (match origin with
      | PyOriginV.listLike xs => !(xs.length == 2)
      | PyOriginV.str _ => false) then
    some "origin length must be equal 2"
  else if (match shape with
      | PyShapeV.listLike _ => false
      | _ => true) then
    some "shape type must be one of LIST_LIKE_OBJECTS"
  else none

/-- `origin` after validation, as consumed by `ImagesBatch._crop_image`. -/
inductive OriginArg
  | topLeft
  | center
  | pair (r c : Int)
deriving DecidableEq

/-- `ImagesBatch._calc_origin`: `top_left ↦ (0,0)`,
`center ↦ np.maximum(image.shape[:2] - np.array(shape), 0) // 2`,
an explicit pair passes through. -/
def calc_origin_batch (a : NpArr) (origin : OriginArg) (shape : Int × Int) : Int × Int :=
  match origin with
  | OriginArg.topLeft => (0, 0)
  | OriginArg.center =>
      (max (((a.shape.getD 0 0 : Nat) : Int) - shape.1) 0 / 2,
       max (((a.shape.getD 1 0 : Nat) : Int) - shape.2) 0 / 2)
  | OriginArg.pair r c => (r, c)

/-- `ImagesBatch._crop_image`: compute the origin; if the requested window
exceeds the image on *both* axes (`np.all(origin + shape > image.shape[:2])`),
shrink the requested shape to `image.shape[:2] - origin`; then slice. -/
def crop_image (a : NpArr) (origin : OriginArg) (shape : Int × Int) : NpArr :=
  let o := calc_origin_batch a origin shape
  let h : Int := ((a.shape.getD 0 0 : Nat) : Int)
  let w : Int := ((a.shape.getD 1 0 : Nat) : Int)
  let s := if o.1 + shape.1 > h ∧ o.2 + shape.2 > w then (h - o.1, w - o.2) else shape
  npSlice2D a o.1 (o.1 + s.1) o.2 (o.2 + s.2)

theorem sliceIdx_count (n : Nat) (x len : Int) (hx : 0 ≤ x) (hl : 0 ≤ len)
    (hxn : x + len ≤ (n : Int)) :
    sliceIdx n (x + len) - sliceIdx n x = len.toNat := by
  unfold sliceIdx
  rw [if_neg (by omega), if_neg (by omega)]
  omega

/-- The crop window fits inside the image: for the named origins this means
the target extents do not exceed the image extents; for an explicit origin
it additionally means the origin is nonnegative and origin + target fits. -/
def origin_fits (origin : OriginArg) (h0 w0 h w : Nat) : Prop :=
  match origin with
  | OriginArg.topLeft => h ≤ h0 ∧ w ≤ w0
  | OriginArg.center => h ≤ h0 ∧ w ≤ w0
  | OriginArg.pair r c => 0 ≤ r ∧ 0 ≤ c ∧ r + (h : Int) ≤ (h0 : Int) ∧ c + (w : Int) ≤ (w0 : Int)

/-- Claim C4, counterexample: a 1-by-1 image cropped with the valid origin
`top_left` to the length-2 shape `(2, 2)` yields an element of shape
`(1, 1)`, not `(2, 2)` — the output shape is not `(h, w, ...)` regardless
of the original image size. -/
theorem c4_counterexample :
    (crop_image (NpArr.mk [1, 1] [5]) OriginArg.topLeft ((2 : Int), (2 : Int))).shape = [1, 1]
      ∧ [1, 1] ≠ [2, 2] := by
  exact ⟨rfl, by decide⟩

/-- Claim C4 (amended): after a per-record crop to the length-2 shape
`(h, w)` with any valid origin, the element has shape exactly `(h, w, ...)`
— provided the crop window fits inside the image (for `top_left` and
`center` this means `h ≤ image height` and `w ≤ image width`). -/
theorem c4_crop_exact_shape (a : NpArr) (h0 w0 : Nat) (rest : List Nat)
    (origin : OriginArg) (h w : Nat)
    (hsh : a.shape = h0 :: w0 :: rest)
    (hfit : origin_fits origin h0 w0 h w) :
    (crop_image a origin ((h : Int), (w : Int))).shape = h :: w :: rest := by
  have hget0 : a.shape.getD 0 0 = h0 := by rw [hsh]; rfl
  have hget1 : a.shape.getD 1 0 = w0 := by rw [hsh]; rfl
  cases origin with
  | topLeft =>
    obtain ⟨hh, hw⟩ := hfit
    simp only [crop_image, calc_origin_batch, hget0, hget1]
    rw [if_neg (by omega)]
    rw [npSlice2D_shape a hsh]
    rw [sliceIdx_count h0 0 (h : Int) (by omega) (by omega) (by omega)]
    rw [sliceIdx_count w0 0 (w : Int) (by omega) (by omega) (by omega)]
    simp
  | center =>
    obtain ⟨hh, hw⟩ := hfit
    simp only [crop_image, calc_origin_batch, hget0, hget1]
    have hmax0 : max (((h0 : Nat) : Int) - (h : Int)) 0 = ((h0 : Nat) : Int) - (h : Int) := by
      omega
    have hmax1 : max (((w0 : Nat) : Int) - (w : Int)) 0 = ((w0 : Nat) : Int) - (w : Int) := by
      omega
    rw [hmax0, hmax1]
    have hd0 : 0 ≤ (((h0 : Nat) : Int) - (h : Int)) / 2 := Int.ediv_nonneg (by omega) (by omega)
    have hd0b : (((h0 : Nat) : Int) - (h : Int)) / 2 ≤ ((h0 : Nat) : Int) - (h : Int) :=
      Int.ediv_le_self 2 (by omega)
    have hd1 : 0 ≤ (((w0 : Nat) : Int) - (w : Int)) / 2 := Int.ediv_nonneg (by omega) (by omega)
    have hd1b : (((w0 : Nat) : Int) - (w : Int)) / 2 ≤ ((w0 : Nat) : Int) - (w : Int) :=
      Int.ediv_le_self 2 (by omega)
    rw [if_neg (by omega)]
    rw [npSlice2D_shape a hsh]
    rw [sliceIdx_count h0 _ (h : Int) hd0 (by omega) (by omega)]
    rw [sliceIdx_count w0 _ (w : Int) hd1 (by omega) (by omega)]
    simp
  | pair r c =>
    obtain ⟨hr, hc, hrh, hcw⟩ := hfit
    simp only [crop_image, calc_origin_batch, hget0, hget1]
    rw [if_neg (by omega)]
    rw [npSlice2D_shape a hsh]
    rw [sliceIdx_count h0 r (h : Int) hr (by omega) (by omega)]
    rw [sliceIdx_count w0 c (w : Int) hc (by omega) (by omega)]
    simp

theorem c4_crop_exact_shape_witness :
    (NpArr.mk [3, 4, 2] (List.replicate 24 0)).shape = 3 :: 4 :: [2]
      ∧ origin_fits OriginArg.center 3 4 2 3
      ∧ (crop_image (NpArr.mk [3, 4, 2] (List.replicate 24 0))
          OriginArg.center ((2 : Int), (3 : Int))).shape = 2 :: 3 :: [2] :=
  ⟨rfl, show (2 ≤ 3 ∧ 3 ≤ 4) from ⟨by decide, by decide⟩,
    c4_crop_exact_shape (NpArr.mk [3, 4, 2] (List.replicate 24 0)) 3 4 [2]
      OriginArg.center 2 3 rfl (show (2 ≤ 3 ∧ 3 ≤ 4) from ⟨by decide, by decide⟩)⟩

/-! ### Batch actions: dispatch, assembly, and return values -/

/-- Outcome of an exposed batch action: a `ValueError` raised by argument
validation at call time (before any dispatch), an exception raised at
assembly time (after the per-record tasks ran), the batch view returned for
chaining, or a bare per-record value. -/
inductive ActionOut
  | validationError (msg : String)
  | assembleRaised (o : AssembleOut)
  | batchView (b : PyBatch)
  | recordValue (a : NpArr)
deriving DecidableEq

/-- `image[ix]`: drop the leading batch axis and pick record `ix`. -/
def getRecordArr (a : NpArr) (ix : Nat) : NpArr :=
  match a.shape with
  | [] => a
  | s0 :: rest => ⟨rest, (chunksN rest.prod s0 a.data).getD ix []⟩

/-- `self.get(ix, components)`. -/
def batchGet (b : PyBatch) (name : String) (ix : Nat) : NpArr :=
  getRecordArr (getComp b name) ix

/-- The `inbatch_parallel(init='indices', post='assemble')` contract,
modelled from the spec (the decorator itself lives outside `src/`): run the
per-record function on every record, in record order, then hand the
collected results to `assemble`; the action returns what `assemble`
returns (`self`, i.e. the updated batch view) unless `assemble` raises. -/
def runParallel (b : PyBatch) (name : String) (f : NpArr → TaskRes) : ActionOut :=
  let n := (getComp b name).shape.headD 0
  let res := (List.range n).map (fun i => f (batchGet b name i))
  match assembleBatch b name res with
  | AssembleOut.finished b2 => ActionOut.batchView b2
  | o => ActionOut.assembleRaised o

/-- Convert a validated `origin` argument to `_crop_image`'s origin. -/
def originToArg (o : PyOriginV) : OriginArg :=
  match o with
  | PyOriginV.str s => if s == "center" then OriginArg.center else OriginArg.topLeft
  | PyOriginV.listLike xs => OriginArg.pair (xs.getD 0 0) (xs.getD 1 0)

/-- `BaseImagesBatch.crop` for `ImagesBatch`: validate the arguments, then
dispatch `_crop` over the records and assemble, then return `self`.
A list-like `shape` whose length is not 2 passes validation and blows up
inside the per-record tasks (a numpy broadcast error), not at call time. -/
def crop_action (b : PyBatch) (name : String) (origin : PyOriginV) (shape : PyShapeV) :
    ActionOut :=
  match crop_validate origin shape with
  | some m => ActionOut.validationError m
  | none =>
    runParallel b name (fun img =>
      match shape with
      | PyShapeV.listLike xs =>
        if xs.length == 2 then
          Except.ok (crop_image img (originToArg origin) (xs.getD 0 0, xs.getD 1 0))
        else Except.error ⟨"operands could not be broadcast together", ""⟩
      | _ => Except.error ⟨"unreachable", ""⟩)

/-- `ImagesBatch._flip_one`: `lr ↦ image[:, ::-1]`, `ud ↦ image[::-1]`. -/
def flip_one (a : NpArr) (mode : String) : NpArr :=
  match a.shape with
  | s0 :: s1 :: rest =>
    let inner := rest.prod
    if mode == "lr" then
      ⟨a.shape, ((chunksN (s1 * inner) s0 a.data).map
        (fun row => ((chunksN inner s1 row).reverse).flatten)).flatten⟩
    else
      ⟨a.shape, ((chunksN (s1 * inner) s0 a.data).reverse).flatten⟩
  | _ => a

/-- `BaseImagesBatch.flip`: validate `mode`, then dispatch `_flip` and
return its result (the batch, via `assemble`). -/
def flip_action (b : PyBatch) (name : String) (mode : String) : ActionOut :=
  if !(mode == "lr" || mode == "ud") then
    ActionOut.validationError "mode can be lr or ud only"
  else
    runParallel b name (fun img => Except.ok (flip_one img mode))

/-- `BaseImagesBatch.rotate` as written in the source: it takes an explicit
record index `ix`, is *not* decorated with `inbatch_parallel`, and returns
`self._rotate_one(ix, ...)` — the rotated image of one record, not the
batch.  The scipy rotation kernel is the opaque external collaborator
`rotKernel image angle reshape`, with `reshape = not preserve_shape`. -/
def rotate_action (rotKernel : NpArr → Int → Bool → NpArr) (b : PyBatch)
    (ix : Nat) (name : String) (angle : Int) (preserve : Bool) : ActionOut :=
  ActionOut.recordValue (rotKernel (batchGet b name ix) angle (!preserve))

theorem runParallel_ne_validation (b : PyBatch) (name : String) (f : NpArr → TaskRes)
    (m : String) : runParallel b name f ≠ ActionOut.validationError m := by
  simp only [runParallel]
  split <;> simp

/-- Does `origin` satisfy the claim's validity condition: one of the two
named strings, or a list-like pair of length 2? -/
def origin_valid (o : PyOriginV) : Bool :=
  match o with
  | PyOriginV.str s => s == "top_left" || s == "center"
  | PyOriginV.listLike xs => xs.length == 2

/-- Is the `shape` argument list-like (of any length)? -/
def shape_list_like (s : PyShapeV) : Bool :=
  match s with
  | PyShapeV.listLike _ => true
  | _ => false

theorem crop_validate_none_iff (origin : PyOriginV) (shape : PyShapeV) :
    crop_validate origin shape = none
      ↔ (origin_valid origin = true ∧ shape_list_like shape = true) := by
  cases origin with
  | str s =>
    cases hb : (s == "top_left" || s == "center") <;>
      cases shape <;>
        simp [crop_validate, origin_valid, shape_list_like, hb]
  | listLike xs =>
    cases hb : (xs.length == 2) <;>
      cases shape <;>
        simp [crop_validate, origin_valid, shape_list_like, hb]

/-- The batch on which the validation counterexample is evaluated:
a single 1-by-1-by-1 image record. -/
def cbatch0 : PyBatch := ⟨[("images", NpArr.mk [1, 1, 1] [7])]⟩

/-- Claim C3, counterexample: `origin='top_left'` is valid and
`shape=[1,2,3]` is list-like of length 3, so the claim ("fails with
ValueError if and only if shape is not array-like of length 2 or origin
invalid") demands an immediate `ValueError`; instead the call passes
validation, dispatches the per-record work, and fails later at assembly
time with a `RuntimeError` after a broadcast error inside the tasks. -/
theorem c3_counterexample :
    origin_valid (PyOriginV.str "top_left") = true
      ∧ shape_list_like (PyShapeV.listLike [1, 2, 3]) = true
      ∧ ([1, 2, 3] : List Int).length ≠ 2
      ∧ crop_action cbatch0 "images" (PyOriginV.str "top_left") (PyShapeV.listLike [1, 2, 3])
        = ActionOut.assembleRaised (AssembleOut.raisedTaskFailure
            [⟨"operands could not be broadcast together", ""⟩] ""
            "Could not assemble the batch" cbatch0) := by
  exact ⟨by decide, by decide, by decide, by decide⟩

/-- Claim C3 (amended): `crop` raises a `ValueError` at call time, before
any per-record work is dispatched, if and only if `origin` is invalid
(neither `top_left`, `center`, nor a list-like pair of length 2) or `shape`
is not list-like.  The length of `shape` is *not* validated: a list-like
`shape` of any length is dispatched into parallel execution. -/
theorem c3_validation_iff (b : PyBatch) (name : String) (origin : PyOriginV)
    (shape : PyShapeV) :
    (∃ m, crop_action b name origin shape = ActionOut.validationError m)
      ↔ (origin_valid origin = false ∨ shape_list_like shape = false) := by
  constructor
  · rintro ⟨m, hm⟩
    by_contra hcon
    rw [not_or] at hcon
    have h1 : origin_valid origin = true := by
      cases hval : origin_valid origin
      · exact absurd hval hcon.1
      · rfl
    have h2 : shape_list_like shape = true := by
      cases hval : shape_list_like shape
      · exact absurd hval hcon.2
      · rfl
    have hnone : crop_validate origin shape = none :=
      (crop_validate_none_iff origin shape).mpr ⟨h1, h2⟩
    simp only [crop_action, hnone] at hm
    exact runParallel_ne_validation b name _ m hm
  · intro hor
    cases hv : crop_validate origin shape with
    | none =>
      rcases (crop_validate_none_iff origin shape).mp hv with ⟨h1, h2⟩
      rcases hor with h | h
      · rw [h1] at h; cases h
      · rw [h2] at h; cases h
    | some m =>
      exact ⟨m, by simp only [crop_action, hv]⟩

/-- The batch on which the action return values are evaluated:
two 1-by-1 image records. -/
def cbatch1 : PyBatch := ⟨[("images", NpArr.mk [2, 1, 1] [3, 4])]⟩

/-- Claim C7: `crop` and `flip` (like the other decorated parallel actions)
return the batch view for chaining, but `rotate` — contrary to the claim
and to its own docstring ("Rotate all images in the batch") — is missing
the `inbatch_parallel` decorator, takes an explicit record index, and
returns the rotated image of that one record rather than the batch. -/
theorem c7_rotate_returns_record_value :
    rotate_action (fun a _ _ => a) cbatch1 0 "images" 30 true
        = ActionOut.recordValue (NpArr.mk [1, 1] [3])
      ∧ crop_action cbatch1 "images" (PyOriginV.str "top_left") (PyShapeV.listLike [1, 1])
        = ActionOut.batchView cbatch1
      ∧ flip_action cbatch1 "images" "lr"
        = ActionOut.batchView cbatch1 := by
  exact ⟨rfl, by decide, by decide⟩

/-! ### The nested-image model for per-record geometry

An `Image α` is a list of rows; a cell `α` packs all trailing axes of the
underlying numpy array.  `preserve_shape` and `random_scale` touch only the
first two axes, so this representation is exact for them. -/

abbrev Image (α : Type) := List (List α)

/-- Number of rows: `image.shape[0]`. -/
def imgH (img : Image α) : Nat := img.length

/-- Number of columns: `image.shape[1]` (0 for an empty image). -/
def imgW (img : Image α) : Nat := (img.headD []).length

/-- All rows have the same length (numpy arrays are rectangular). -/
def isRect (img : Image α) : Bool :=
  img.all (fun row => row.length == (img.headD []).length)

/-- Pixel access with a default for out-of-range indices. -/
def px (z : α) (img : Image α) (r c : Nat) : α :=
  (img.getD r []).getD c z

/-- The `crop` mode string consumed by the numba helpers
(`top_left` or `center`; any other string would crash the numba kernel). -/
inductive CropMode
  | top_left
  | center
deriving DecidableEq

/-- `calc_origin` (numba helper): origin for `preserve_shape`,
`np.abs(shape_coord - image_coord) // 2` for `center`. -/
def calc_origin (image_coord shape_coord : Int) (crop : CropMode) : Int :=
  match crop with
  | CropMode.top_left => 0
  | CropMode.center => (((shape_coord - image_coord).natAbs : Nat) : Int) / 2

/-- `calc_coords` (numba helper): returns
`(image_origin, new_image_origin, image_len)` for one axis. -/
def calc_coords (image_coord shape_coord : Int) (crop : CropMode) : Int × Int × Int :=
  if image_coord < shape_coord then
    (0, calc_origin image_coord shape_coord crop, image_coord)
  else
    (calc_origin image_coord shape_coord crop, 0, shape_coord)

/-- `preserve_shape_numba`: the `(new_x, new_y, x, y)` slice bounds. -/
def preserve_shape_numba (image_shape shape : Int × Int) (crop : CropMode) :
    (Int × Int) × (Int × Int) × (Int × Int) × (Int × Int) :=
  let xc := calc_coords image_shape.1 shape.1 crop
  let yc := calc_coords image_shape.2 shape.2 crop
  ((xc.2.1, xc.2.1 + xc.2.2), (yc.2.1, yc.2.1 + yc.2.2),
   (xc.1, xc.1 + xc.2.2), (yc.1, yc.1 + yc.2.2))

/-- `image[r0:r1, c0:c1]` on the nested representation, with Python's
slice-bound normalization. -/
def slice2D (img : Image α) (r0 r1 c0 c1 : Int) : Image α :=
  let ra := sliceIdx img.length r0
  let rb := sliceIdx img.length r1
  ((img.drop ra).take (rb - ra)).map (fun row =>
    (row.drop (sliceIdx row.length c0)).take
      (sliceIdx row.length c1 - sliceIdx row.length c0))

/-- In-place region assignment `canvas[r0:., c0:.] = sub` on the nested
representation (the embedded code only calls it with an in-range window). -/
def assign2D (canvas : Image α) (r0 c0 : Nat) (sub : Image α) : Image α :=
  canvas.take r0
    ++ List.zipWith
        (fun crow srow => crow.take c0 ++ srow ++ crow.drop (c0 + srow.length))
        ((canvas.drop r0).take sub.length) sub
    ++ canvas.drop (r0 + sub.length)

/-- `ImagesBatch._preserve_shape`: `shape` is `(width, height)` (the
`get_image_size` convention); build a zero canvas of shape
`shape[::-1] + image.shape[2:]` and assign
`new_image[slice(*new_y), slice(*new_x)] = image[slice(*y), slice(*x)]`. -/
def preserve_shape_image (z : α) (img : Image α) (shape : Int × Int) (crop : CropMode) :
    Image α :=
  let image_size : Int × Int := ((imgW img : Nat), (imgH img : Nat))
  let r := preserve_shape_numba image_size shape crop
  let canvas : Image α := List.replicate shape.2.toNat (List.replicate shape.1.toNat z)
  assign2D canvas r.2.1.1.toNat r.1.1.toNat (slice2D img r.2.2.2.1 r.2.2.2.2 r.2.2.1.1 r.2.2.1.2)

/-- The per-axis origin exactly as the claim words it: 0 for `top_left`,
`floor(|image_extent - target_extent| / 2)` for `center`. -/
def origin_as_specified (imageExtent targetExtent : Int) (crop : CropMode) : Int :=
  match crop with
  | CropMode.top_left => 0
  | CropMode.center => (((imageExtent - targetExtent).natAbs : Nat) : Int) / 2

/-- The per-axis plan exactly as the claim words it: when the image is
undersized on this axis, paste the whole image extent at the computed
origin of the new canvas; when oversized (or equal), crop the image to the
target extent starting at the computed origin. -/
def axis_plan_as_specified (imageExtent targetExtent : Int) (crop : CropMode) :
    Int × Int × Int :=
  if imageExtent < targetExtent then
    (0, origin_as_specified imageExtent targetExtent crop, imageExtent)
  else
    (origin_as_specified imageExtent targetExtent crop, 0, targetExtent)

/-! ### List access lemmas -/

theorem getD_take_lt (xs : List α) (k n : Nat) (d : α) (h : n < k) :
    (xs.take k).getD n d = xs.getD n d := by
  induction xs generalizing k n with
  | nil => simp
  | cons x xs ih =>
    cases k with
    | zero => omega
    | succ k =>
      cases n with
      | zero => rfl
      | succ n => exact ih k n (by omega)

theorem getD_drop_add (xs : List α) (k n : Nat) (d : α) :
    (xs.drop k).getD n d = xs.getD (k + n) d := by
  induction xs generalizing k with
  | nil => simp
  | cons x xs ih =>
    cases k with
    | zero => simp
    | succ k =>
      rw [List.drop_succ_cons, ih k]
      have h : k + 1 + n = (k + n) + 1 := by omega
      rw [h, List.getD_cons_succ]

theorem getD_replicate_lt (a : α) (m n : Nat) (d : α) (h : n < m) :
    (List.replicate m a).getD n d = a := by
  induction m generalizing n with
  | zero => omega
  | succ m ih =>
    cases n with
    | zero => rfl
    | succ n => exact ih n (by omega)

theorem getD_zipWith_both (f : α → β → γ) (xs : List α) (ys : List β) (n : Nat)
    (d : γ) (dx : α) (dy : β) (hx : n < xs.length) (hy : n < ys.length) :
    (List.zipWith f xs ys).getD n d = f (xs.getD n dx) (ys.getD n dy) := by
  induction xs generalizing ys n with
  | nil => simp at hx
  | cons x xs ih =>
    cases ys with
    | nil => simp at hy
    | cons y ys =>
      cases n with
      | zero => rfl
      | succ n =>
        simp only [List.length_cons] at hx hy
        exact ih ys n (by omega) (by omega)

theorem getD_splice (xs repl : List α) (i r : Nat) (d : α)
    (hlen : i + repl.length ≤ xs.length) :
    (xs.take i ++ repl ++ xs.drop (i + repl.length)).getD r d
      = if i ≤ r ∧ r < i + repl.length then repl.getD (r - i) d else xs.getD r d := by
  have hti : (xs.take i).length = i := by
    rw [List.length_take]; omega
  by_cases h1 : r < i
  · rw [if_neg (by omega)]
    rw [List.getD_append _ _ _ _ (by rw [List.length_append, hti]; omega)]
    rw [List.getD_append _ _ _ _ (by omega)]
    exact getD_take_lt xs i r d h1
  · by_cases h2 : r < i + repl.length
    · rw [if_pos ⟨by omega, h2⟩]
      rw [List.getD_append _ _ _ _ (by rw [List.length_append, hti]; omega)]
      rw [List.getD_append_right _ _ _ _ (by omega)]
      rw [hti]
    · rw [if_neg (by omega)]
      rw [List.getD_append_right _ _ _ _ (by rw [List.length_append, hti]; omega)]
      rw [List.length_append, hti, getD_drop_add]
      congr 1
      omega

theorem sliceIdx_le (n : Nat) (i : Int) : sliceIdx n i ≤ n := by
  unfold sliceIdx
  split <;> omega

/-! ### Bounds of `calc_coords` and dimensions of `preserve_shape` -/

theorem calc_coords_bounds (i s : Int) (crop : CropMode) (hi : 0 ≤ i) (hs : 0 ≤ s) :
    0 ≤ (calc_coords i s crop).1 ∧ 0 ≤ (calc_coords i s crop).2.1
      ∧ 0 ≤ (calc_coords i s crop).2.2
      ∧ (calc_coords i s crop).1 + (calc_coords i s crop).2.2 ≤ i
      ∧ (calc_coords i s crop).2.1 + (calc_coords i s crop).2.2 ≤ s := by
  unfold calc_coords calc_origin
  cases crop with
  | top_left =>
    split <;> simp <;> omega
  | center =>
    have habs : (((s - i).natAbs : Nat) : Int) = if i < s then s - i else i - s := by
      split <;> omega
    have hdiv0 : 0 ≤ (((s - i).natAbs : Nat) : Int) / 2 :=
      Int.ediv_nonneg (by omega) (by omega)
    have hdiv1 : (((s - i).natAbs : Nat) : Int) / 2 ≤ (((s - i).natAbs : Nat) : Int) :=
      Int.ediv_le_self 2 (by omega)
    split <;> simp only [] <;>
      refine ⟨by omega, by omega, by omega, by omega, by omega⟩

theorem mem_zipWith {f : α → β → γ} {c : γ} :
    ∀ {as : List α} {bs : List β}, c ∈ List.zipWith f as bs →
      ∃ a b, a ∈ as ∧ b ∈ bs ∧ c = f a b := by
  intro as
  induction as with
  | nil => intro bs h; simp at h
  | cons a as ih =>
    intro bs h
    cases bs with
    | nil => simp at h
    | cons b bs =>
      rw [List.zipWith_cons_cons] at h
      rcases List.mem_cons.mp h with h | h
      · exact ⟨a, b, List.mem_cons_self _ _, List.mem_cons_self _ _, h⟩
      · obtain ⟨a2, b2, ha, hb, hc⟩ := ih h
        exact ⟨a2, b2, List.mem_cons_of_mem _ ha, List.mem_cons_of_mem _ hb, hc⟩

theorem length_assign2D (canvas sub : Image α) (r0 c0 : Nat)
    (h : r0 + sub.length ≤ canvas.length) :
    (assign2D canvas r0 c0 sub).length = canvas.length := by
  unfold assign2D
  rw [List.length_append, List.length_append, List.length_take,
    List.length_zipWith, List.length_take, List.length_drop, List.length_drop]
  omega

theorem assign2D_row_length (canvas sub : Image α) (r0 c0 : Nat) (W : Nat)
    (hcanvas : ∀ row ∈ canvas, row.length = W)
    (hsub : ∀ srow ∈ sub, c0 + srow.length ≤ W) :
    ∀ row ∈ assign2D canvas r0 c0 sub, row.length = W := by
  intro row hrow
  unfold assign2D at hrow
  rcases List.mem_append.mp hrow with h | h
  · rcases List.mem_append.mp h with h | h
    · exact hcanvas row (List.mem_of_mem_take h)
    · obtain ⟨crow, srow, hc, hs, heq⟩ := mem_zipWith h
      have hcw : crow.length = W :=
        hcanvas crow (List.mem_of_mem_drop (List.mem_of_mem_take hc))
      have hsw := hsub srow hs
      rw [heq, List.length_append, List.length_append, List.length_take,
        List.length_drop]
      omega
  · exact hcanvas row (List.mem_of_mem_drop h)

theorem sliceIdx_pair_le (n : Nat) (a len : Int) (ha : 0 ≤ a) (hl : 0 ≤ len) :
    sliceIdx n (a + len) - sliceIdx n a ≤ len.toNat := by
  unfold sliceIdx
  rw [if_neg (by omega), if_neg (by omega)]
  omega

theorem slice2D_length_le (img : Image α) (a len c0 c1 : Int)
    (ha : 0 ≤ a) (hl : 0 ≤ len) :
    (slice2D img a (a + len) c0 c1).length ≤ len.toNat := by
  unfold slice2D
  rw [List.length_map, List.length_take]
  have := sliceIdx_pair_le img.length a len ha hl
  omega

theorem slice2D_row_len_le (img : Image α) (r0 r1 b lenc : Int)
    (hb : 0 ≤ b) (hl : 0 ≤ lenc) :
    ∀ srow ∈ slice2D img r0 r1 b (b + lenc), srow.length ≤ lenc.toNat := by
  intro srow hs
  unfold slice2D at hs
  obtain ⟨row, hrow, heq⟩ := List.mem_map.mp hs
  rw [← heq, List.length_take]
  have := sliceIdx_pair_le row.length b lenc hb hl
  omega

theorem assign_slice_dims (z : α) (img : Image α) (tw th : Int)
    (y0 ny0 ly x0 nx0 lx : Int)
    (hy0 : 0 ≤ y0) (hny0 : 0 ≤ ny0) (hly : 0 ≤ ly) (hyth : ny0 + ly ≤ th)
    (hx0 : 0 ≤ x0) (hnx0 : 0 ≤ nx0) (hlx : 0 ≤ lx) (hxtw : nx0 + lx ≤ tw) :
    (assign2D (List.replicate th.toNat (List.replicate tw.toNat z))
        ny0.toNat nx0.toNat (slice2D img y0 (y0 + ly) x0 (x0 + lx))).length = th.toNat
      ∧ ∀ row ∈ assign2D (List.replicate th.toNat (List.replicate tw.toNat z))
          ny0.toNat nx0.toNat (slice2D img y0 (y0 + ly) x0 (x0 + lx)),
          row.length = tw.toNat := by
  have hsublen := slice2D_length_le img y0 ly x0 (x0 + lx) hy0 hly
  constructor
  · rw [length_assign2D]
    · rw [List.length_replicate]
    · rw [List.length_replicate]
      omega
  · apply assign2D_row_length
    · intro row hrow
      rw [List.eq_of_mem_replicate hrow, List.length_replicate]
    · intro srow hs
      have := slice2D_row_len_le img y0 (y0 + ly) x0 lx hx0 hlx srow hs
      omega

theorem preserve_shape_dims (z : α) (img : Image α) (tw th : Int)
    (crop : CropMode) (hw : 0 ≤ tw) (hh : 0 ≤ th) :
    (preserve_shape_image z img (tw, th) crop).length = th.toNat
      ∧ ∀ row ∈ preserve_shape_image z img (tw, th) crop, row.length = tw.toNat := by
  obtain ⟨hx1, hx2, hx3, hx4, hx5⟩ :=
    calc_coords_bounds ((imgW img : Nat) : Int) tw crop (by omega) hw
  obtain ⟨hy1, hy2, hy3, hy4, hy5⟩ :=
    calc_coords_bounds ((imgH img : Nat) : Int) th crop (by omega) hh
  unfold preserve_shape_image preserve_shape_numba
  exact assign_slice_dims z img tw th _ _ _ _ _ _ hy1 hy2 hy3 hy5 hx1 hx2 hx3 hx5

/-! ### `random_scale` -/

/-- `np.random.uniform(lo, hi)` driven by a uniform draw `u ∈ [0, 1)`. -/
def uniform_draw (lo hi u : ℚ) : ℚ := lo + u * (hi - lo)

/-- `np.round`: round half to even (numpy banker's rounding). -/
def npRoundQ (q : ℚ) : Int :=
  let f := ⌊q⌋
  let r := q - (f : ℚ)
  if r < 1 / 2 then f
  else if 1 / 2 < r then f + 1
  else if f % 2 = 0 then f else f + 1

/-- `.astype(np.int16)`: wrap into the signed 16-bit range. -/
def int16wrap (z : Int) : Int := (z + 32768) % 65536 - 32768

/-- `BaseImagesBatch.random_scale` for one record of an `ImagesBatch`:
with probability `p` (the binomial draw succeeds when `uCoin < p`), draw a
factor uniformly from `[lo, hi)`, resize to
`np.round(np.array(image_size) * factor).astype(np.int16)` via the opaque
resize kernel, and, when `preserve_shape`, paste or crop the result back to
the original `image_size` via `_preserve_shape`; otherwise return the image
unchanged.  `image_size = (width, height)` per `get_image_size`. -/
def random_scale_one (resizeK : Image α → Int × Int → Image α) (z : α) (img : Image α)
    (p uCoin uFactor lo hi : ℚ) (preserve : Bool) (crop : CropMode) : Image α :=
  if uCoin < p then
    let f := uniform_draw lo hi uFactor
    let sw := int16wrap (npRoundQ ((imgW img : ℚ) * f))
    let sh := int16wrap (npRoundQ ((imgH img : ℚ) * f))
    let resized := resizeK img (sw, sh)
    if preserve then
      preserve_shape_image z resized (((imgW img : Nat) : Int), ((imgH img : Nat) : Int)) crop
    else resized
  else img

/-- Claim C6: with `p = 0` `random_scale` returns every image unchanged;
with `p = 1` it always resizes by a factor drawn uniformly from
`[lo, hi)` (the factor lies in `[lo, hi]` whenever `lo ≤ hi`), and when
`preserve_shape` is set the returned image has the same height and width as
the original. -/
theorem c6_random_scale (resizeK : Image α → Int × Int → Image α) (z : α)
    (img : Image α) (uCoin uFactor lo hi : ℚ) (crop : CropMode) (preserve : Bool) :
    (0 ≤ uCoin →
      random_scale_one resizeK z img 0 uCoin uFactor lo hi preserve crop = img)
    ∧ (uCoin < 1 →
      random_scale_one resizeK z img 1 uCoin uFactor lo hi preserve crop
        = (if preserve then
            preserve_shape_image z
              (resizeK img
                (int16wrap (npRoundQ ((imgW img : ℚ) * uniform_draw lo hi uFactor)),
                 int16wrap (npRoundQ ((imgH img : ℚ) * uniform_draw lo hi uFactor))))
              (((imgW img : Nat) : Int), ((imgH img : Nat) : Int)) crop
          else
            resizeK img
              (int16wrap (npRoundQ ((imgW img : ℚ) * uniform_draw lo hi uFactor)),
               int16wrap (npRoundQ ((imgH img : ℚ) * uniform_draw lo hi uFactor)))))
    ∧ (uCoin < 1 → preserve = true →
      imgH (random_scale_one resizeK z img 1 uCoin uFactor lo hi preserve crop) = imgH img
        ∧ imgW (random_scale_one resizeK z img 1 uCoin uFactor lo hi preserve crop)
            = imgW img)
    ∧ (0 ≤ uFactor → uFactor ≤ 1 → lo ≤ hi →
      lo ≤ uniform_draw lo hi uFactor ∧ uniform_draw lo hi uFactor ≤ hi) := by
  refine ⟨?_, ?_, ?_, ?_⟩
  · intro h
    unfold random_scale_one
    rw [if_neg (by exact not_lt.mpr h)]
  · intro h
    unfold random_scale_one
    rw [if_pos h]
  · intro h hp
    unfold random_scale_one
    rw [if_pos h, hp, if_pos rfl]
    obtain ⟨hlen, hrows⟩ := preserve_shape_dims z
      (resizeK img
        (int16wrap (npRoundQ ((imgW img : ℚ) * uniform_draw lo hi uFactor)),
         int16wrap (npRoundQ ((imgH img : ℚ) * uniform_draw lo hi uFactor))))
      (((imgW img : Nat) : Int)) (((imgH img : Nat) : Int)) crop (by omega) (by omega)
    constructor
    · show (preserve_shape_image _ _ _ _).length = imgH img
      rw [hlen]
      omega
    · cases hres : preserve_shape_image z
        (resizeK img
          (int16wrap (npRoundQ ((imgW img : ℚ) * uniform_draw lo hi uFactor)),
           int16wrap (npRoundQ ((imgH img : ℚ) * uniform_draw lo hi uFactor))))
        (((imgW img : Nat) : Int), ((imgH img : Nat) : Int)) crop with
      | nil =>
        have hth : imgH img = 0 := by
          have := hlen
          rw [hres] at this
          simp at this
          omega
        have himg : img = [] := List.length_eq_zero.mp hth
        rw [himg]
      | cons r rs =>
        have hr : r.length = ((imgW img : Nat) : Int).toNat := by
          apply hrows
          rw [hres]
          exact List.mem_cons_self _ _
        show (List.headD (r :: rs) []).length = imgW img
        simp only [List.headD_cons]
        omega
  · intro h0 h1 hlohi
    unfold uniform_draw
    constructor
    · nlinarith
    · nlinarith

theorem c6_random_scale_witness :
    random_scale_one (fun _ _ => [[(7 : Int)]]) 0 [[1], [2]]
        0 (1 / 2) (1 / 3) 1 2 true CropMode.center = [[1], [2]]
      ∧ imgH (random_scale_one (fun _ _ => [[(7 : Int)]]) 0 [[1], [2]]
          1 (1 / 2) (1 / 3) 1 2 true CropMode.center) = 2
      ∧ imgW (random_scale_one (fun _ _ => [[(7 : Int)]]) 0 [[1], [2]]
          1 (1 / 2) (1 / 3) 1 2 true CropMode.center) = 1
      ∧ 1 ≤ uniform_draw 1 2 (1 / 3) ∧ uniform_draw 1 2 (1 / 3) ≤ 2 := by
  have h := c6_random_scale (fun _ _ => [[(7 : Int)]]) 0 [[1], [2]]
    (1 / 2) (1 / 3) 1 2 CropMode.center true
  refine ⟨h.1 (by norm_num), ?_, ?_, ?_, ?_⟩
  · exact (h.2.2.1 (by norm_num) rfl).1
  · exact (h.2.2.1 (by norm_num) rfl).2
  · exact (h.2.2.2 (by norm_num) (by norm_num) (by norm_num)).1
  · exact (h.2.2.2 (by norm_num) (by norm_num) (by norm_num)).2

/-! ### Pixel-level characterization of `preserve_shape` -/

theorem getD_splice2 (xs repl : List α) (i r slen : Nat) (d : α)
    (hrl : repl.length = slen) (hlen : i + slen ≤ xs.length) :
    (xs.take i ++ repl ++ xs.drop (i + slen)).getD r d
      = if i ≤ r ∧ r < i + slen then repl.getD (r - i) d else xs.getD r d := by
  subst hrl
  exact getD_splice xs repl i r d hlen

theorem isRect_row_len (img : Image α) (h : isRect img = true) :
    ∀ row ∈ img, row.length = imgW img := by
  unfold isRect at h
  rw [List.all_eq_true] at h
  intro row hrow
  have := h row hrow
  simpa [imgW] using this

theorem slice2D_getD (img : Image α) (r0 r1 c0 c1 : Int) (j : Nat)
    (hj : j < (slice2D img r0 r1 c0 c1).length) :
    (slice2D img r0 r1 c0 c1).getD j []
      = ((img.getD (sliceIdx img.length r0 + j) []).drop
            (sliceIdx (img.getD (sliceIdx img.length r0 + j) []).length c0)).take
          (sliceIdx (img.getD (sliceIdx img.length r0 + j) []).length c1
            - sliceIdx (img.getD (sliceIdx img.length r0 + j) []).length c0) := by
  unfold slice2D at hj ⊢
  rw [List.length_map, List.length_take] at hj
  have hf : (fun (row : List α) =>
      (row.drop (sliceIdx row.length c0)).take
        (sliceIdx row.length c1 - sliceIdx row.length c0)) [] = [] := by
    simp
  calc (((img.drop (sliceIdx img.length r0)).take
          (sliceIdx img.length r1 - sliceIdx img.length r0)).map
            (fun row => (row.drop (sliceIdx row.length c0)).take
              (sliceIdx row.length c1 - sliceIdx row.length c0))).getD j []
      = (((img.drop (sliceIdx img.length r0)).take
          (sliceIdx img.length r1 - sliceIdx img.length r0)).map
            (fun row => (row.drop (sliceIdx row.length c0)).take
              (sliceIdx row.length c1 - sliceIdx row.length c0))).getD j
          ((fun (row : List α) => (row.drop (sliceIdx row.length c0)).take
              (sliceIdx row.length c1 - sliceIdx row.length c0)) []) := by rw [hf]
    _ = (fun (row : List α) => (row.drop (sliceIdx row.length c0)).take
            (sliceIdx row.length c1 - sliceIdx row.length c0))
          (((img.drop (sliceIdx img.length r0)).take
            (sliceIdx img.length r1 - sliceIdx img.length r0)).getD j []) :=
        List.getD_map _ _ _
    _ = _ := by
        rw [getD_take_lt _ _ _ _ (by omega), getD_drop_add]

theorem assign2D_getD (canvas sub : Image α) (r0 c0 r : Nat)
    (hfit : r0 + sub.length ≤ canvas.length) :
    (assign2D canvas r0 c0 sub).getD r []
      = if r0 ≤ r ∧ r < r0 + sub.length then
          (canvas.getD r []).take c0 ++ sub.getD (r - r0) []
            ++ (canvas.getD r []).drop (c0 + (sub.getD (r - r0) []).length)
        else canvas.getD r [] := by
  unfold assign2D
  have hrepllen : (List.zipWith (fun crow srow =>
      crow.take c0 ++ srow ++ crow.drop (c0 + srow.length))
      ((canvas.drop r0).take sub.length) sub).length = sub.length := by
    rw [List.length_zipWith, List.length_take, List.length_drop]
    omega
  rw [getD_splice2 _ _ _ _ _ _ hrepllen hfit]
  by_cases hcond : r0 ≤ r ∧ r < r0 + sub.length
  · rw [if_pos hcond, if_pos hcond]
    rw [getD_zipWith_both _ _ _ _ _ [] []
      (by rw [List.length_take, List.length_drop]; omega) (by omega)]
    rw [getD_take_lt _ _ _ _ (by omega), getD_drop_add]
    have hidx : r0 + (r - r0) = r := by omega
    rw [hidx]
  · rw [if_neg hcond, if_neg hcond]

theorem assign_slice_px (z : α) (img : Image α) (tw th y0 ny0 ly x0 nx0 lx : Int)
    (hrect : isRect img = true)
    (hy0 : 0 ≤ y0) (hny0 : 0 ≤ ny0) (hly : 0 ≤ ly)
    (hyh : y0 + ly ≤ (imgH img : Int)) (hyth : ny0 + ly ≤ th)
    (hx0 : 0 ≤ x0) (hnx0 : 0 ≤ nx0) (hlx : 0 ≤ lx)
    (hxw : x0 + lx ≤ (imgW img : Int)) (hxtw : nx0 + lx ≤ tw)
    (r c : Nat) (hr : r < th.toNat) (hc : c < tw.toNat) :
    px z (assign2D (List.replicate th.toNat (List.replicate tw.toNat z))
        ny0.toNat nx0.toNat (slice2D img y0 (y0 + ly) x0 (x0 + lx))) r c
      = if ny0 ≤ (r : Int) ∧ (r : Int) < ny0 + ly ∧ nx0 ≤ (c : Int) ∧ (c : Int) < nx0 + lx
        then px z img (y0 + ((r : Int) - ny0)).toNat (x0 + ((c : Int) - nx0)).toNat
        else z := by
  have hyh2 : y0 + ly ≤ (img.length : Int) := hyh
  have hra : sliceIdx img.length y0 = y0.toNat :=
    sliceIdx_of_le _ _ hy0 (by omega)
  have hrb : sliceIdx img.length (y0 + ly) = (y0 + ly).toNat :=
    sliceIdx_of_le _ _ (by omega) (by omega)
  have hsublen : (slice2D img y0 (y0 + ly) x0 (x0 + lx)).length = ly.toNat := by
    unfold slice2D
    rw [List.length_map, List.length_take, List.length_drop, hra, hrb]
    omega
  have hcanlen : (List.replicate th.toNat (List.replicate tw.toNat z)).length = th.toNat :=
    List.length_replicate _ _
  unfold px
  rw [assign2D_getD _ _ _ _ _ (by rw [hsublen, hcanlen]; omega)]
  by_cases hrow : ny0.toNat ≤ r ∧ r < ny0.toNat + (slice2D img y0 (y0 + ly) x0 (x0 + lx)).length
  · rw [if_pos hrow]
    -- the canvas row is all zeros
    have hcrow : (List.replicate th.toNat (List.replicate tw.toNat z)).getD r []
        = List.replicate tw.toNat z := getD_replicate_lt _ _ _ _ hr
    -- the source row selected by the slice
    have hj : r - ny0.toNat < (slice2D img y0 (y0 + ly) x0 (x0 + lx)).length := by omega
    have hsrow := slice2D_getD img y0 (y0 + ly) x0 (x0 + lx) (r - ny0.toNat) hj
    rw [hra] at hsrow
    -- the selected row of the image and its length
    have hrowlt : y0.toNat + (r - ny0.toNat) < img.length := by
      rw [hsublen] at hrow
      omega
    have hrowmem : img.getD (y0.toNat + (r - ny0.toNat)) [] ∈ img := by
      rw [List.getD_eq_getElem _ _ hrowlt]
      exact List.getElem_mem hrowlt
    have hrowlen : (img.getD (y0.toNat + (r - ny0.toNat)) []).length = imgW img :=
      isRect_row_len img hrect _ hrowmem
    have hca : sliceIdx (img.getD (y0.toNat + (r - ny0.toNat)) []).length x0 = x0.toNat := by
      rw [hrowlen]
      exact sliceIdx_of_le _ _ hx0 (by omega)
    have hcb : sliceIdx (img.getD (y0.toNat + (r - ny0.toNat)) []).length (x0 + lx)
        = (x0 + lx).toNat := by
      rw [hrowlen]
      exact sliceIdx_of_le _ _ (by omega) (by omega)
    rw [hca, hcb] at hsrow
    have hsrowlen : ((slice2D img y0 (y0 + ly) x0 (x0 + lx)).getD (r - ny0.toNat) []).length
        = lx.toNat := by
      rw [hsrow, List.length_take, List.length_drop, hrowlen]
      omega
    rw [hcrow]
    rw [getD_splice2 _ _ _ _ _ _ rfl
      (by rw [hsrowlen, List.length_replicate]; omega)]
    by_cases hcol : nx0.toNat ≤ c ∧ c < nx0.toNat + lx.toNat
    · rw [if_pos ⟨hcol.1, by rw [hsrowlen]; omega⟩]
      rw [hsrow]
      rw [getD_take_lt _ _ _ _ (by omega), getD_drop_add]
      rw [if_pos (by rw [hsublen] at hrow; refine ⟨by omega, by omega, by omega, by omega⟩)]
      have hA : (y0 + ((r : Int) - ny0)).toNat = y0.toNat + (r - ny0.toNat) := by omega
      have hB : (x0 + ((c : Int) - nx0)).toNat = x0.toNat + (c - nx0.toNat) := by omega
      rw [hA, hB]
    · rw [if_neg (by rw [hsrowlen]; omega)]
      rw [if_neg (by rw [hsublen] at hrow; omega)]
      exact getD_replicate_lt _ _ _ _ hc
  · rw [if_neg hrow]
    have hcrow : (List.replicate th.toNat (List.replicate tw.toNat z)).getD r []
        = List.replicate tw.toNat z := getD_replicate_lt _ _ _ _ hr
    rw [hcrow, if_neg (by rw [hsublen] at hrow; omega)]
    exact getD_replicate_lt _ _ _ _ hc

theorem calc_coords_eq_plan (i s : Int) (crop : CropMode) :
    calc_coords i s crop = axis_plan_as_specified i s crop := by
  have h : (s - i).natAbs = (i - s).natAbs := by omega
  cases crop <;>
    simp only [calc_coords, axis_plan_as_specified, calc_origin, origin_as_specified, h]

/-- Claim C5: the `preserve_shape` step computes an origin independently per
axis — 0 for `top_left`, `floor(|image_extent - target_extent| / 2)` for
`center` — and then, per axis, crops the image to the target extent at that
origin when the image is oversized, or pastes it at that origin into a
zero-filled canvas of the target shape when it is undersized: every pixel of
the result is the correspondingly shifted source pixel inside the pasted or
cropped window and the fill value `z` outside it. -/
theorem c5_preserve_shape_policy :
    (∀ (i s : Int) (crop : CropMode),
      calc_origin i s CropMode.top_left = 0
        ∧ calc_origin i s CropMode.center = (((i - s).natAbs : Nat) : Int) / 2
        ∧ calc_coords i s crop = axis_plan_as_specified i s crop)
    ∧ ∀ (α : Type) (z : α) (img : Image α) (tw th : Int) (crop : CropMode) (r c : Nat),
        isRect img = true → 0 ≤ tw → 0 ≤ th → r < th.toNat → c < tw.toNat →
        px z (preserve_shape_image z img (tw, th) crop) r c
          = if (calc_coords ((imgH img : Nat) : Int) th crop).2.1 ≤ (r : Int)
                ∧ (r : Int) < (calc_coords ((imgH img : Nat) : Int) th crop).2.1
                    + (calc_coords ((imgH img : Nat) : Int) th crop).2.2
                ∧ (calc_coords ((imgW img : Nat) : Int) tw crop).2.1 ≤ (c : Int)
                ∧ (c : Int) < (calc_coords ((imgW img : Nat) : Int) tw crop).2.1
                    + (calc_coords ((imgW img : Nat) : Int) tw crop).2.2 then
              px z img
                ((calc_coords ((imgH img : Nat) : Int) th crop).1
                  + ((r : Int) - (calc_coords ((imgH img : Nat) : Int) th crop).2.1)).toNat
                ((calc_coords ((imgW img : Nat) : Int) tw crop).1
                  + ((c : Int) - (calc_coords ((imgW img : Nat) : Int) tw crop).2.1)).toNat
            else z := by
  constructor
  · intro i s crop
    refine ⟨rfl, ?_, calc_coords_eq_plan i s crop⟩
    have h : (s - i).natAbs = (i - s).natAbs := by omega
    simp only [calc_origin, h]
  · intro α z img tw th crop r c hrect htw hth hr hc
    obtain ⟨hx1, hx2, hx3, hx4, hx5⟩ :=
      calc_coords_bounds ((imgW img : Nat) : Int) tw crop (by omega) htw
    obtain ⟨hy1, hy2, hy3, hy4, hy5⟩ :=
      calc_coords_bounds ((imgH img : Nat) : Int) th crop (by omega) hth
    unfold preserve_shape_image preserve_shape_numba
    exact assign_slice_px z img tw th _ _ _ _ _ _ hrect hy1 hy2 hy3 hy4 hy5
      hx1 hx2 hx3 hx4 hx5 r c hr hc

theorem c5_preserve_shape_policy_witness :
    isRect [[(1 : Int), 2], [3, 4]] = true
      ∧ px (0 : Int) (preserve_shape_image 0 [[(1 : Int), 2], [3, 4]] (3, 1)
          CropMode.top_left) 0 0 = 1 := by
  constructor
  · decide
  · have h := c5_preserve_shape_policy.2 Int 0 [[(1 : Int), 2], [3, 4]] 3 1
      CropMode.top_left 0 0 (by decide) (by decide) (by decide) (by decide) (by decide)
    rw [h]
    decide

/-! ### The component-view system

Modelled from the spec: the implementation (`create_item_class` in
`batchflow/components.py`) is not under `src/`; only its test suite
(`src/batchflow/tests/components_test.py`) is.  The model follows the
spec's section 4.3 — a view is an (index subset, storage reference, crop
flag) triple; `crop=False` aliases the parent's storage, `crop=True` copies
the selected values into a fresh independent cell — restricted to a single
array-backed component with natural-number identifiers (the `labels`
scenario of the claims).  Attribute read on a view that does not span its
cell's full index is a numpy fancy-indexed *copy*, as fixed by the assertions
of `test_getattr_setitem1`; a full-spanning view receives the backing array
itself.  Mutable state is the explicit heap of storage cells. -/

/-- One storage cell: its record identifiers and the backing array. -/
structure CCell where
  ids : List Nat
  vals : List Int
deriving DecidableEq

/-- The storage heap; a view references a cell by position. -/
abbrev CHeap := List CCell

/-- A component view: a storage reference and its index subset. -/
structure CView where
  ref : Nat
  ids : List Nat
deriving DecidableEq

def heap_cell (h : CHeap) (r : Nat) : CCell := h.getD r ⟨[], []⟩

/-- Resolve one identifier through a cell's own index and read the value
(absent identifiers — a presence error in the spec — are not exercised by
the claims and read as 0). -/
def cell_lookup (c : CCell) (id : Nat) : Int :=
  match c.ids.findIdx? (fun t => t == id) with
  | some i => c.vals.getD i 0
  | none => 0

/-- Attribute read restricted to the view's index, in index order. -/
def view_read (h : CHeap) (v : CView) : List Int :=
  v.ids.map (fun id => cell_lookup (heap_cell h v.ref) id)

/-- Subscription `view[id]`: a single-identifier view aliasing the same
storage (never copies). -/
def view_sub (v : CView) (id : Nat) : CView := ⟨v.ref, [id]⟩

def cell_write (c : CCell) (id : Nat) (x : Int) : CCell :=
  match c.ids.findIdx? (fun t => t == id) with
  | some i => ⟨c.ids, c.vals.set i x⟩
  | none => c

/-- Attribute write through a view: writes into the storage cell the view
aliases or owns, at the positions resolved for the view's identifiers. -/
def view_setattr (h : CHeap) (v : CView) (x : Int) : CHeap :=
  h.set v.ref (v.ids.foldl (fun c id => cell_write c id x) (heap_cell h v.ref))

/-- `create(component_names, source, index_subset, crop)`: no subset spans
the source and aliases it; `crop=False` narrows the index but aliases the
same cell; `crop=True` copies the selected values into a new independent
cell. -/
def create_item (h : CHeap) (src : CView) (sub : Option (List Nat)) (crop : Bool) :
    CHeap × CView :=
  match sub with
  | none => (h, src)
  | some ids =>
    if crop then
      (h ++ [⟨ids, ids.map (fun id => cell_lookup (heap_cell h src.ref) id)⟩],
       ⟨h.length, ids⟩)
    else (h, ⟨src.ref, ids⟩)

/-- A Python array value with provenance: either the backing store's own
array or an independent fancy-indexed copy. -/
inductive PyArrRef
  | store (r : Nat)
  | copied (vals : List Int)
deriving DecidableEq

/-- Attribute read, with provenance: a full-spanning view receives the
backing array itself; a narrowed view receives a fancy-indexed copy. -/
def view_getattr (h : CHeap) (v : CView) : PyArrRef :=
  if v.ids == (heap_cell h v.ref).ids then PyArrRef.store v.ref
  else PyArrRef.copied (view_read h v)

/-- Element assignment `arr[i] = x` into an array value: through the
store's own array it mutates the heap; through a copy it mutates only the
copy. -/
def arr_set_elem (h : CHeap) (a : PyArrRef) (i : Nat) (x : Int) : CHeap × PyArrRef :=
  match a with
  | PyArrRef.store r =>
    (h.set r ⟨(heap_cell h r).ids, (heap_cell h r).vals.set i x⟩, PyArrRef.store r)
  | PyArrRef.copied vs => (h, PyArrRef.copied (vs.set i x))

/-! ### The claims' component scenario: labels 100..199 over index 0..99 -/

def labels0 : List Int := (List.range 100).map (fun i => (i : Int) + 100)

def heap0 : CHeap := [⟨List.range 100, labels0⟩]

def view0 : CView := ⟨0, List.range 100⟩

/-- Narrow to identifiers 12..67 without cropping (aliases the root). -/
def hv1 : CHeap × CView := create_item heap0 view0 (some (natRange 12 68)) false

/-- Narrow again to identifiers 25..47 with `crop=True` (independent copy). -/
def hv2 : CHeap × CView := create_item hv1.1 hv1.2 (some (natRange 25 48)) true

/-- Set `labels` at identifier 38 to 1000 through the cropped 25..47 chain. -/
def heap8 : CHeap := view_setattr hv2.1 (view_sub hv2.2 38) 1000

/-- Claim C8: in the 0..99/100..199 scenario, after narrowing to 12..67
(`crop=False`) and then to 25..47 (`crop=True`), labels at identifier 38
read 138; setting labels at 38 to 1000 through the cropped chain changes
the cropped view's reading to 1000 but leaves the non-cropped 12..67
ancestor reading 138 at 38 and leaves the root view entirely unaffected. -/
theorem c8_crop_isolation :
    view_read hv2.1 (view_sub hv2.2 38) = [138]
      ∧ view_read heap8 (view_sub hv2.2 38) = [1000]
      ∧ view_read heap8 (view_sub hv1.2 38) = [138]
      ∧ view_read heap8 (view_sub view0 38) = [138]
      ∧ view_read heap8 view0 = labels0 := by
  exact ⟨by decide, by decide, by decide, by decide, by decide⟩

/-- Narrow the cropped 25..47 view to 32..41 without cropping
(the `a32_42` view of the repository's test suite). -/
def hv3 : CHeap × CView := create_item hv2.1 hv2.2 (some (natRange 32 42)) false

/-- The array returned by attribute read on the narrowed 32..41 view. -/
def arr9 : PyArrRef := view_getattr hv3.1 hv3.2

/-- `a32_42.labels[6] = 1000`: assign into position 6 of that array. -/
def step9 : CHeap × PyArrRef := arr_set_elem hv3.1 arr9 6 1000

/-- Claim C9, counterexample (the scenario of `test_getattr_setitem1`):
reading `labels` through the narrowed non-cropped 32..41 view returns a
fancy-indexed copy; assigning 1000 into its position 6 (identifier 38)
mutates only that copy — the heap is unchanged and reading identifier 38
through the very same view still yields 138, not 1000, contradicting the
claimed mutate-through-the-returned-array visibility. -/
theorem c9_counterexample :
    arr9 = PyArrRef.copied [132, 133, 134, 135, 136, 137, 138, 139, 140, 141]
      ∧ step9.2 = PyArrRef.copied [132, 133, 134, 135, 136, 137, 1000, 139, 140, 141]
      ∧ step9.1 = hv3.1
      ∧ view_read step9.1 (view_sub hv3.2 38) = [138]
      ∧ view_read step9.1 (view_sub hv3.2 38) ≠ [1000] := by
  exact ⟨by decide, by decide, by decide, by decide, by decide⟩

/-- Claim C9 (amended): attribute read through a non-cropped view whose
index does not span its backing cell's full index returns an independent
copy (numpy fancy indexing), so assigning a new value to one position of
the returned array mutates only that copy: the backing store is unchanged
and no view — the same one or any other — observes the new value; only a
view spanning the full index receives the backing array itself. -/
theorem c9_narrowed_read_is_copy (h : CHeap) (v : CView) (i : Nat) (x : Int)
    (hn : v.ids ≠ (heap_cell h v.ref).ids) :
    view_getattr h v = PyArrRef.copied (view_read h v)
      ∧ arr_set_elem h (view_getattr h v) i x
          = (h, PyArrRef.copied ((view_read h v).set i x))
      ∧ ∀ v2 : CView,
          view_read (arr_set_elem h (view_getattr h v) i x).1 v2 = view_read h v2 := by
  have hne : (v.ids == (heap_cell h v.ref).ids) = false := by
    rw [beq_eq_false_iff_ne]
    exact hn
  refine ⟨?_, ?_, ?_⟩
  · simp [view_getattr, hne]
  · simp [view_getattr, hne, arr_set_elem]
  · intro v2
    simp [view_getattr, hne, arr_set_elem]

theorem c9_narrowed_read_is_copy_witness :
    hv3.2.ids ≠ (heap_cell hv3.1 hv3.2.ref).ids
      ∧ arr_set_elem hv3.1 (view_getattr hv3.1 hv3.2) 6 1000
          = (hv3.1, PyArrRef.copied ((view_read hv3.1 hv3.2).set 6 1000)) :=
  ⟨by decide, (c9_narrowed_read_is_copy hv3.1 hv3.2 6 1000 (by decide)).2.1⟩
